import Mathlib

/-!
Verification development for the rule-debugger dashboard.

The repository is a full-stack rule-debugging dashboard: a React/TypeScript
frontend (present in `src/`) and a Python/FastAPI backend (described by the
README and the specification, but whose Python sources are not part of the
material under `src/`).  The frontend pieces (`ThresholdOverrides`,
`TracePanel`, `types.ts`) are embedded directly from their TypeScript source.
The backend engine (record store, sender profiles, rule evaluators, stats
cache) is modelled from the specification, and every such definition carries a
doc comment starting with `Modelled from the spec:`.

JavaScript strings are embedded as `List Char`; JavaScript numbers, which in
the relevant UI and engine paths are finite decimal values, are embedded as
exact decimals (an integer mantissa with a power-of-ten scale) and, on the
engine side, as rationals.
-/

namespace RuleDebugger

/-! ## Characters and digit strings (model of the JS string primitives) -/

/-- The whitespace characters stripped by JavaScript's `String.prototype.trim`
(restricted to the ASCII whitespace actually occurring in the UI). -/
def isSpaceChar (c : Char) : Bool :=
  c = ' ' || c = '\t' || c = '\n' || c = '\r'

/-- Model of JS `String.prototype.trim`: drop whitespace from both ends. -/
def trimChars (s : List Char) : List Char :=
  ((s.dropWhile isSpaceChar).reverse.dropWhile isSpaceChar).reverse

/-- Decimal digit characters `'0'..'9'`. -/
def isDigitChar (c : Char) : Bool :=
  '0' ≤ c && c ≤ '9'

/-- The character for a single decimal digit. -/
def digitChar (d : Nat) : Char :=
  Char.ofNat (48 + d)

/-- The numeric value of a decimal digit character. -/
def charDigit (c : Char) : Nat :=
  c.toNat - 48

/-- Decimal digit string of a natural number, most significant digit first
(model of JS `String(n)` for nonnegative integers). -/
def natToChars (n : Nat) : List Char :=
  if _h : n < 10 then [digitChar n]
  else natToChars (n / 10) ++ [digitChar (n % 10)]
decreasing_by exact Nat.div_lt_self (by omega) (by omega)

/-- Numeric value of a digit string, most significant digit first. -/
def digitsToNat (s : List Char) : Nat :=
  s.foldl (fun a c => a * 10 + charDigit c) 0

/-- Parse a nonempty all-digit string; anything else is `none` (NaN). -/
def parseDigits (s : List Char) : Option Nat :=
  if s ≠ [] ∧ s.all isDigitChar then some (digitsToNat s) else none

/-- Model of JS `s.split(sep)` for a single-character separator.  Like the JS
function, splitting the empty string yields `[[]]` (one empty field). -/
def splitAtChar (sep : Char) : List Char → List (List Char)
  | [] => [[]]
  | c :: rest =>
    if c = sep then [] :: splitAtChar sep rest
    else
      match splitAtChar sep rest with
      | [] => [[c]]
      | h :: t => (c :: h) :: t

structure JSNum where
  m : Int
  e : Nat
deriving DecidableEq

/-- Strip trailing fractional zero digits (`1.50` to `1.5`). -/
def stripZeros : Int → Nat → Int × Nat
  | m, 0 => (m, 0)
  | m, e + 1 => if m % 10 = 0 then stripZeros (m / 10) e else (m, e + 1)

/-- Build a `JSNum` in canonical form from mantissa and scale. -/
def normJS (m : Int) (e : Nat) : JSNum :=
  ⟨(stripZeros m e).1, (stripZeros m e).2⟩

/-- A `JSNum` is in the canonical form JS exposes: no trailing fractional
zero digits. -/
def JSNum.normalized (d : JSNum) : Prop := d.e = 0 ∨ d.m % 10 ≠ 0

instance (d : JSNum) : Decidable d.normalized := by
  unfold JSNum.normalized; infer_instance

/-- Digit string of the integer `i` (model of JS `String(i)` for integers). -/
def intToChars (i : Int) : List Char :=
  if i < 0 then '-' :: natToChars i.natAbs else natToChars i.natAbs

/-- Exactly `e` decimal digits of `n % 10 ^ e`, most significant first,
zero-padded on the left (the fractional digits of a decimal). -/
def padDigits : Nat → Nat → List Char
  | 0, _ => []
  | e + 1, n => padDigits e (n / 10) ++ [digitChar (n % 10)]

/-- Leading-sign handling of JS `Number(...)`: an optional `'-'` or `'+'`. -/
def splitSign : List Char → Bool × List Char
  | [] => (false, [])
  | c :: r => if c = '-' then (true, r) else if c = '+' then (false, r) else (false, c :: r)

/-- Apply a sign to a magnitude. -/
def intOfSign (neg : Bool) (n : Nat) : Int :=
  if neg then -(n : Int) else (n : Int)

/-- Decimal rendering of a `JSNum` (model of JS `String(n)` for finite
decimals): the integer digits, then — when the scale is positive — a dot and
exactly `e` fractional digits. -/
def numToChars (d : JSNum) : List Char :=
  if d.e = 0 then intToChars d.m
  else
    (if d.m < 0 then ['-'] else []) ++
      natToChars (d.m.natAbs / 10 ^ d.e) ++ '.' :: padDigits d.e (d.m.natAbs % 10 ^ d.e)

/-- Digits-and-dot stage of JS `Number(...)`: the sign-free part split at
`'.'` is either one digit group or two (integer and fractional digits). -/
def jsParseParts (neg : Bool) : List (List Char) → Option JSNum
  | [ds1] => (parseDigits ds1).map (fun n => normJS (intOfSign neg n) 0)
  | [ds1, ds2] =>
    if (ds1 ++ ds2) ≠ [] ∧ (ds1 ++ ds2).all isDigitChar = true then
      some (normJS (intOfSign neg (digitsToNat (ds1 ++ ds2))) ds2.length)
    else none
  | _ => none

/-- Model of JS `Number(raw)` on the decimal fragment of its grammar:
whitespace is trimmed, the empty string is `0`, an optional sign is followed
by digits with at most one dot.  Exponent/hex forms, which the override
editor never produces, parse to `none` (NaN). -/
def jsParseNum (s0 : List Char) : Option JSNum :=
  if trimChars s0 = [] then some ⟨0, 0⟩
  else
    jsParseParts (splitSign (trimChars s0)).1 (splitAtChar '.' (splitSign (trimChars s0)).2)

inductive JSVal where
  | num (d : JSNum)
  | str (s : List Char)
  | arr (elems : List (List Char))
  | null
deriving DecidableEq

/-- JS `Array.prototype.join(sep)` generalised over the separator. -/
def joinSep (sep : List Char) : List (List Char) → List Char
  | [] => []
  | [x] => x
  | x :: y :: t => x ++ sep ++ joinSep sep (y :: t)

/-- `toDisplayString` from `ThresholdOverrides.tsx`: arrays join with
`", "`, anything else is `String(val ?? "")`. -/
def toDisplayString : JSVal → List Char
  | .arr l => joinSep [',', ' '] l
  | .num d => numToChars d
  | .str s => s
  | .null => []

/-- Model of the JS `String(val)` primitive on the same values (used by
`handleInput`'s `raw === String(defaultVal)` comparison): arrays stringify by
joining with `","` — no space — and `null` stringifies as `"null"`. -/
def jsStringOf : JSVal → List Char
  | .arr l => joinSep [','] l
  | .num d => numToChars d
  | .str s => s
  | .null => ['n', 'u', 'l', 'l']

/-- `parseValue` from `ThresholdOverrides.tsx`: coercion of the raw input
string against the DEFAULT value's runtime type — a numeric default parses
the input with `Number` (keeping the raw string when that yields NaN); an
array default splits on commas, trims each piece, and drops empty pieces;
any other default keeps the raw string. -/
def parseValue (raw : List Char) (defaultVal : JSVal) : JSVal :=
  match defaultVal with
  | .num _ =>
    match jsParseNum raw with
    | some n => .num n
    | none => .str raw
  | .arr _ => .arr (((splitAtChar ',' raw).map trimChars).filter (fun s => s ≠ []))
  | _ => .str raw

/-- Property access `obj[key]` on a JS-object-as-association-list. -/
def getKey (k : String) : List (String × JSVal) → Option JSVal
  | [] => none
  | p :: t => if p.1 = k then some p.2 else getKey k t

/-- Remove a key from a JS-object-as-association-list. -/
def removeKey (k : String) (l : List (String × JSVal)) : List (String × JSVal) :=
  l.filter (fun p => p.1 ≠ k)

/-- Set a key in a JS-object-as-association-list. -/
def setKey (k : String) (v : JSVal) (l : List (String × JSVal)) : List (String × JSVal) :=
  removeKey k l ++ [(k, v)]

/-- The debounced commit inside `handleInput` of `ThresholdOverrides.tsx`:
if the raw input is empty or equals `String(defaultVal)`, the key is deleted
from the overrides object; otherwise the key is set to
`parseValue(raw, defaultVal)`. -/
def handleInput (params overrides : List (String × JSVal)) (key : String)
    (raw : List Char) : List (String × JSVal) :=
  if raw = [] ∨ raw = jsStringOf ((getKey key params).getD .null) then
    removeKey key overrides
  else setKey key (parseValue raw ((getKey key params).getD .null)) overrides

/-- `overridesJson` from `TracePanel.tsx`: the overrides object is serialized
into the evaluate request only when it is nonempty. -/
def overridesJson (overrides : List (String × JSVal)) : Option (List (String × JSVal)) :=
  if overrides = [] then none else some overrides

/-- `Transaction` record, fields as declared in `frontend/src/types.ts`. -/
structure Transaction where
  transaction_id : String
  txn_date_time : String
  sender_account_id : String
  receiver_account_id : Option Int
  amount : ℚ
  currency : String
  transaction_type : String
  terminal_id : Option Int
  merchant_city : Option String
  merchant_country : Option String
  merchant_postcode : Option String
  merchant_description_condensed : Option String
deriving DecidableEq

/-- `FeatureVector` record, fields as declared in `frontend/src/types.ts`. -/
structure FeatureVector where
  transaction_id : String
  sender_account_id : String
  receiver_account_id : Option Int
  amount : ℚ
  currency : String
  transaction_type : String
  transaction_count : ℚ
  avg_transaction_amount : ℚ
  hour_of_day : ℚ
  day_of_week : ℚ
  merchant_avg_transaction_amount : ℚ
deriving DecidableEq

/-- Modelled from the spec: a typed rule parameter value — number,
set of strings, or scalar (§9 "model each parameter's declared type
explicitly"). -/
inductive ParamValue where
  | num (q : ℚ)
  | strSet (l : List String)
  | scalar (s : String)
deriving DecidableEq

/-- Modelled from the spec: the runtime shape of an override value arriving
at the evaluator through the flat override mapping (§6). -/
inductive OverrideVal where
  | num (q : ℚ)
  | str (s : String)
  | list (l : List String)
deriving DecidableEq

/-- Value occurring in an `EvalStep`'s `threshold`/`actual` slots (typed
stand-in for the `unknown` of `types.ts`). -/
inductive EvalValue where
  | num (q : ℚ)
  | str (s : String)
  | list (l : List String)
  | interval (lo hi : ℚ)
  | null
deriving DecidableEq

/-- `EvalStep` record, fields as declared in `frontend/src/types.ts`. -/
structure EvalStep where
  name : String
  field : String
  operator : String
  threshold : EvalValue
  actual : EvalValue
  passed : Bool
deriving DecidableEq

/-- `EvalTrace` record, fields as declared in `frontend/src/types.ts`. -/
structure EvalTrace where
  rule_id : String
  rule_name : String
  transaction_id : String
  fired : Bool
  steps : List EvalStep
deriving DecidableEq

/-- Modelled from the spec: the seven rule kinds as an explicit sum type
(§9 "avoid runtime reflection by enumerating the seven rule kinds"). -/
inductive RuleId where
  | highValue
  | multiSmall
  | unusualType
  | highRiskCountry
  | crossBorder
  | outsideHours
  | largeCash
deriving DecidableEq

/-- Modelled from the spec: rule-id strings of the README's rule table. -/
def parseRule : String → Option RuleId
  | "RULE_001" => some .highValue
  | "RULE_002" => some .multiSmall
  | "RULE_003" => some .unusualType
  | "RULE_004" => some .highRiskCountry
  | "RULE_005" => some .crossBorder
  | "RULE_006" => some .outsideHours
  | "RULE_007" => some .largeCash
  | _ => none

/-- Rule-id string of a rule kind. -/
def ruleIdStr : RuleId → String
  | .highValue => "RULE_001"
  | .multiSmall => "RULE_002"
  | .unusualType => "RULE_003"
  | .highRiskCountry => "RULE_004"
  | .crossBorder => "RULE_005"
  | .outsideHours => "RULE_006"
  | .largeCash => "RULE_007"

/-- Modelled from the spec: human rule names of the README's rule table. -/
def ruleName : RuleId → String
  | .highValue => "High Value Transaction"
  | .multiSmall => "Multiple Small Txns"
  | .unusualType => "Unusual Type for User"
  | .highRiskCountry => "High-Risk Merchant"
  | .crossBorder => "Cross-Border Anomaly"
  | .outsideHours => "Outside Normal Hours"
  | .largeCash => "Large Cash Withdrawal"

/-- Modelled from the spec: severity metadata (§3 RuleDefinition). -/
def ruleSeverity : RuleId → String
  | .highValue => "high"
  | .multiSmall => "medium"
  | .unusualType => "medium"
  | .highRiskCountry => "critical"
  | .crossBorder => "high"
  | .outsideHours => "low"
  | .largeCash => "high"

/-- Modelled from the spec: action metadata (§3 RuleDefinition). -/
def ruleAction : RuleId → String
  | .highValue => "flag"
  | .multiSmall => "flag"
  | .unusualType => "flag"
  | .highRiskCountry => "block"
  | .crossBorder => "flag"
  | .outsideHours => "allow"
  | .largeCash => "block"

/-- Modelled from the spec: the default high-risk merchant-country set of the
README's rule table. -/
def highRiskSet : List String :=
  ["PRK", "IRN", "SYR", "CUB", "VEN", "MMR", "AFG", "YEM", "LBY", "SOM"]

/-- Modelled from the spec: each rule's default parameter mapping, with the
default thresholds of the README's rule table (P95 amount 2048, P50 amount
15.60, frequency 10%). -/
def ruleDefaults : RuleId → List (String × ParamValue)
  | .highValue => [("threshold", .num 2048)]
  | .multiSmall => [("min_count", .num 5), ("max_avg_amount", .num (78 / 5))]
  | .unusualType => [("threshold", .num (1 / 10))]
  | .highRiskCountry => [("high_risk_countries", .strSet highRiskSet)]
  | .crossBorder => [("threshold", .num (78 / 5))]
  | .outsideHours => [("start_hour", .num 8), ("end_hour", .num 22)]
  | .largeCash => [("cash_types", .strSet ["chip_and_pin"]), ("threshold", .num 200)]

/-- Association-list lookup by name (leftmost match). -/
def assocLookup {α : Type} (name : String) : List (String × α) → Option α
  | [] => none
  | p :: t => if p.1 = name then some p.2 else assocLookup name t

/-- Read a numeric parameter from an effective-parameter list. -/
def getNumParam (ps : List (String × ParamValue)) (name : String) (dflt : ℚ) : ℚ :=
  match assocLookup name ps with
  | some (.num q) => q
  | _ => dflt

/-- Read a string-set parameter from an effective-parameter list. -/
def getSetParam (ps : List (String × ParamValue)) (name : String)
    (dflt : List String) : List String :=
  match assocLookup name ps with
  | some (.strSet l) => l
  | _ => dflt

/-- Modelled from the spec: per-sender profile — modal merchant country and
transaction-type frequency distribution (§3 SenderProfile). -/
structure SenderProfile where
  modal_country : Option String
  type_freq : String → ℚ

/-- Modelled from the spec: the record store after a successful atomic load —
transactions paired one-to-one with their feature vectors (§3: absence of a
feature vector is a data-integrity condition, not a normal case). -/
structure RecordStore where
  records : List (Transaction × FeatureVector)

/-- The sender's transaction group (§4.2's grouped-by-sender index, read off
extensionally as a filter). -/
def senderTxns (store : RecordStore) (s : String) : List Transaction :=
  (store.records.map Prod.fst).filter (fun t => t.sender_account_id = s)

/-- Occurrences of a merchant country within a transaction group. -/
def countCountry (g : List Transaction) (c : String) : Nat :=
  g.countP (fun t => t.merchant_country = some c)

/-- Modelled from the spec: modal merchant country of a group — most
frequent, ties broken by the lexicographically least code (§4.3). -/
def modalOf (g : List Transaction) : Option String :=
  (g.filterMap (fun t => t.merchant_country)).dedup.foldl
    (fun acc c =>
      match acc with
      | none => some c
      | some b =>
        if countCountry g c > countCountry g b
            ∨ (countCountry g c = countCountry g b ∧ c < b)
        then some c else some b)
    none

/-- Modelled from the spec: a transaction type's relative frequency within a
group — count over total (§4.3). -/
def typeFreqOf (g : List Transaction) (ty : String) : ℚ :=
  ((g.countP (fun t => t.transaction_type = ty) : ℚ)) / ((g.length : ℚ))

/-- Modelled from the spec: build the sender profile from the sender's
transaction group (§4.3). -/
def profileOf (store : RecordStore) (s : String) : SenderProfile :=
  ⟨modalOf (senderTxns store s), fun ty => typeFreqOf (senderTxns store s) ty⟩

/-- `EvalValue` view of a nullable country. -/
def countryVal : Option String → EvalValue
  | some c => .str c
  | none => .null

/-- Modelled from the spec: the ordered evaluation steps of each of the seven
rules (§4.4 rule table).  Numeric comparisons use the effective threshold
exactly as given; set membership is case-sensitive exact string match; the
hour test uses the half-open interval. -/
def mkSteps (r : RuleId) (t : Transaction) (fv : FeatureVector)
    (prof : SenderProfile) (ps : List (String × ParamValue)) : List EvalStep :=
  match r with
  | .highValue =>
    let th := getNumParam ps "threshold" 2048
    [⟨"High value", "amount", ">", .num th, .num t.amount, decide (t.amount > th)⟩]
  | .multiSmall =>
    let n := getNumParam ps "min_count" 5
    let sm := getNumParam ps "max_avg_amount" (78 / 5)
    [⟨"Many historical transactions", "transaction_count", ">=", .num n,
       .num fv.transaction_count, decide (fv.transaction_count ≥ n)⟩,
     ⟨"Small average amount", "avg_transaction_amount", "<=", .num sm,
       .num fv.avg_transaction_amount, decide (fv.avg_transaction_amount ≤ sm)⟩]
  | .unusualType =>
    let th := getNumParam ps "threshold" (1 / 10)
    let fr := prof.type_freq t.transaction_type
    [⟨"Rare type for sender", "transaction_type_frequency", "<", .num th,
       .num fr, decide (fr < th)⟩]
  | .highRiskCountry =>
    let hr := getSetParam ps "high_risk_countries" highRiskSet
    [⟨"High-risk merchant country", "merchant_country", "in", .list hr,
       countryVal t.merchant_country,
       match t.merchant_country with
       | some c => decide (c ∈ hr)
       | none => false⟩]
  | .crossBorder =>
    let th := getNumParam ps "threshold" (78 / 5)
    [⟨"Country differs from sender's modal country", "merchant_country", "!=",
       countryVal prof.modal_country, countryVal t.merchant_country,
       decide (t.merchant_country ≠ prof.modal_country)⟩,
     ⟨"Amount at or above threshold", "amount", ">=", .num th, .num t.amount,
       decide (t.amount ≥ th)⟩]
  | .outsideHours =>
    let s := getNumParam ps "start_hour" 8
    let e := getNumParam ps "end_hour" 22
    [⟨"Outside normal hours", "hour_of_day", "not in", .interval s e,
       .num fv.hour_of_day, decide (¬(s ≤ fv.hour_of_day ∧ fv.hour_of_day < e))⟩]
  | .largeCash =>
    let ct := getSetParam ps "cash_types" ["chip_and_pin"]
    let th := getNumParam ps "threshold" 200
    [⟨"Cash-like transaction type", "transaction_type", "in", .list ct,
       .str t.transaction_type, decide (t.transaction_type ∈ ct)⟩,
     ⟨"Large amount", "amount", ">=", .num th, .num t.amount,
       decide (t.amount ≥ th)⟩]

/-- Modelled from the spec: the error taxonomy of §7 (startup errors are not
reachable from the evaluation path and are omitted). -/
inductive EvalError where
  | ruleNotFound (rule_id : String)
  | transactionNotFound (transaction_id : String)
  | invalidOverride (param : String) (expected : String)
deriving DecidableEq

/-- The declared-type name surfaced by `InvalidOverrideError` (§4.5 "number
vs. set-of-strings vs. scalar"). -/
def paramTypeName : ParamValue → String
  | .num _ => "number"
  | .strSet _ => "set-of-strings"
  | .scalar _ => "scalar"

/-- Modelled from the spec: coercion of one override value against the
parameter's DECLARED type (§9), not the override's runtime shape; `none`
when the value cannot be coerced. -/
def coerceOverride : ParamValue → OverrideVal → Option ParamValue
  | .num _, .num q => some (.num q)
  | .strSet _, .list l => some (.strSet l)
  | .scalar _, .str s => some (.scalar s)
  | _, _ => none

/-- Merge one default parameter with the override mapping. -/
def mergeParam (p : String × ParamValue) (ov : List (String × OverrideVal)) :
    Except EvalError (String × ParamValue) :=
  match assocLookup p.1 ov with
  | none => .ok p
  | some o =>
    match coerceOverride p.2 o with
    | some v => .ok (p.1, v)
    | none => .error (.invalidOverride p.1 (paramTypeName p.2))

/-- Modelled from the spec: the partial-override merge (§4.4) — every default
parameter named in the override mapping is replaced by the coerced override,
every other parameter keeps its default; a non-coercible override fails the
whole merge with `InvalidOverrideError`. -/
def mergeParams : List (String × ParamValue) → List (String × OverrideVal) →
    Except EvalError (List (String × ParamValue))
  | [], _ => .ok []
  | p :: t, ov =>
    match mergeParam p ov with
    | .error e => .error e
    | .ok q =>
      match mergeParams t ov with
      | .error e => .error e
      | .ok rest => .ok (q :: rest)

/-- Transaction lookup by id. -/
def findRecord (store : RecordStore) (tid : String) :
    Option (Transaction × FeatureVector) :=
  store.records.find? (fun rec => rec.1.transaction_id = tid)

/-- Evaluation once the rule is resolved: look up, merge, run, wrap. -/
def evaluateWithRule (store : RecordStore) (r : RuleId)
    (rule_id transaction_id : String) (overrides : List (String × OverrideVal)) :
    Except EvalError EvalTrace :=
  match findRecord store transaction_id with
  | none => .error (.transactionNotFound transaction_id)
  | some rec =>
    match mergeParams (ruleDefaults r) overrides with
    | .error e => .error e
    | .ok ps =>
      .ok ⟨rule_id, ruleName r, transaction_id,
        (mkSteps r rec.1 rec.2 (profileOf store rec.1.sender_account_id) ps).all
          (fun st => st.passed),
        mkSteps r rec.1 rec.2 (profileOf store rec.1.sender_account_id) ps⟩

/-- Modelled from the spec: `evaluate(ruleId, transactionId, overrides?)`
(§4.5) — resolves the rule, the transaction and its feature vector, merges
overrides onto the defaults, runs the rule's steps, and wraps the
AND-verdict into an `EvalTrace`. -/
def evaluate (store : RecordStore) (rule_id transaction_id : String)
    (overrides : List (String × OverrideVal)) : Except EvalError EvalTrace :=
  match parseRule rule_id with
  | none => .error (.ruleNotFound rule_id)
  | some r => evaluateWithRule store r rule_id transaction_id overrides

/-- `RuleStats` record, fields as declared in `frontend/src/types.ts`, plus
the spec's fired-transaction-id set (§3 RuleStats). -/
structure RuleStats where
  rule_id : String
  rule_name : String
  total_transactions : Nat
  fired_count : Nat
  not_fired_count : Nat
  fire_rate : ℚ
  severity : String
  action : String
  fired_ids : List String

/-- Whether a rule fires on a stored record under DEFAULT parameters. -/
def defaultFired (store : RecordStore) (r : RuleId)
    (rec : Transaction × FeatureVector) : Bool :=
  (mkSteps r rec.1 rec.2 (profileOf store rec.1.sender_account_id)
    (ruleDefaults r)).all (fun st => st.passed)

/-- Modelled from the spec: the startup Stats Cache entry for one rule —
evaluate every transaction once under default parameters, accumulate the
fired set and counts, fire rate is fired over total (§4.6). -/
def buildRuleStats (store : RecordStore) (r : RuleId) : RuleStats :=
  let fired := store.records.filter (defaultFired store r)
  let notFired := store.records.filter (fun rec => !defaultFired store r rec)
  ⟨ruleIdStr r, ruleName r, store.records.length, fired.length, notFired.length,
    ((fired.length : ℚ)) / ((store.records.length : ℚ)), ruleSeverity r, ruleAction r,
    fired.map (fun rec => rec.1.transaction_id)⟩

/-- Modelled from the spec: the running application — the read-only store and
the Stats Cache computed once at startup (§5). -/
structure App where
  store : RecordStore
  stats : RuleId → RuleStats

/-- Modelled from the spec: startup builds the Stats Cache once, before any
request is served (§4.6, §5). -/
def startApp (store : RecordStore) : App :=
  ⟨store, fun r => buildRuleStats store r⟩

/-- Modelled from the spec: serving one evaluate request — the call has no
side effects, so the application state is returned unchanged (§4.5, §4.6
"overrides never touch or invalidate this cache"). -/
def appEvaluate (app : App) (rule_id transaction_id : String)
    (overrides : List (String × OverrideVal)) :
    Except EvalError EvalTrace × App :=
  (evaluate app.store rule_id transaction_id overrides, app)

/-! ## The trace panel's step-through state machine

Embedding of the interactive state of `frontend/src/components/TracePanel.tsx`
for one mounted panel (the panel remounts — all state reset — when the
selected rule changes, via the `key={selectedRuleId}` prop in `App.tsx`). -/

/-- Number of steps each rule's trace carries (fixed per rule). -/
def stepCount : RuleId → Nat
  | .highValue => 1
  | .multiSmall => 2
  | .unusualType => 1
  | .highRiskCountry => 1
  | .crossBorder => 2
  | .outsideHours => 1
  | .largeCash => 2

/-- The React state of a mounted `TracePanel`: selected transaction (from
`App.tsx`), `overrides`, `stepThrough`, `visibleStep`. -/
structure PanelState where
  selectedTxnId : Option String
  overrides : List (String × OverrideVal)
  stepThrough : Bool
  visibleStep : Nat
deriving DecidableEq

/-- Initial state of a freshly mounted panel: nothing selected, no overrides,
step-through off, `visibleStep = 0`. -/
def initPanel : PanelState :=
  ⟨none, [], false, 0⟩

/-- The trace currently rendered by the panel: the evaluate result for the
selected transaction, `none` when nothing is selected or the call failed. -/
def panelTrace (store : RecordStore) (rule_id : String) (s : PanelState) :
    Option EvalTrace :=
  match s.selectedTxnId with
  | none => none
  | some tid => (evaluate store rule_id tid s.overrides).toOption

/-- `totalSteps` of `TracePanel.tsx`: `trace?.steps.length ?? 0`. -/
def totalSteps (store : RecordStore) (rule_id : String) (s : PanelState) : Nat :=
  match panelTrace store rule_id s with
  | some tr => tr.steps.length
  | none => 0

/-- User interactions affecting the panel state within one mount. -/
inductive PanelEvent where
  | selectTxn (tid : String)
  | clearTxn
  | setOverrides (ov : List (String × OverrideVal))
  | toggleStepThrough
  | prevStep
  | nextStep

/-- One interaction step of `TracePanel.tsx`: selecting a transaction or
changing overrides re-queries the trace but keeps `stepThrough` and
`visibleStep`; the Step Through button (shown only when `totalSteps > 1`)
toggles the mode and resets `visibleStep` to 0; Prev is disabled at index 0
and Next at the last index. -/
def panelStep (store : RecordStore) (rule_id : String) (s : PanelState) :
    PanelEvent → PanelState
  | .selectTxn tid => { s with selectedTxnId := some tid }
  | .clearTxn => { s with selectedTxnId := none }
  | .setOverrides ov => { s with overrides := ov }
  | .toggleStepThrough =>
    if totalSteps store rule_id s > 1 then
      { s with stepThrough := !s.stepThrough, visibleStep := 0 }
    else s
  | .prevStep =>
    if s.stepThrough = true ∧ (panelTrace store rule_id s).isSome ∧ 0 < s.visibleStep
    then { s with visibleStep := s.visibleStep - 1 }
    else s
  | .nextStep =>
    if s.stepThrough = true ∧ (panelTrace store rule_id s).isSome
        ∧ s.visibleStep < totalSteps store rule_id s - 1
    then { s with visibleStep := s.visibleStep + 1 }
    else s

/-- Run a sequence of interactions from the freshly mounted panel. -/
def runPanel (store : RecordStore) (rule_id : String)
    (events : List PanelEvent) : PanelState :=
  events.foldl (panelStep store rule_id) initPanel

/-! ## Concrete sample data (used by the witnesses) -/

/-- A sample transaction with amount 2500. -/
def sampleTxn : Transaction :=
  ⟨"T1", "2024-03-05T14:30:00", "S1", none, 2500, "GBP", "online", none,
    some "London", some "GBR", none, some "Acme Ltd"⟩

/-- The sample transaction's feature vector. -/
def sampleFv : FeatureVector :=
  ⟨"T1", "S1", none, 2500, "GBP", "online", 10, 250, 14, 2, 100⟩

/-- A one-record store. -/
def sampleStore : RecordStore :=
  ⟨[(sampleTxn, sampleFv)]⟩

/-- A transaction of sender S9 with a given id and type. -/
def s9Txn (id ty : String) : Transaction :=
  ⟨id, "2024-03-05T10:00:00", "S9", none, 50, "GBP", ty, none, none,
    some "GBR", none, none⟩

/-- Feature vector for `s9Txn`. -/
def s9Fv (id ty : String) : FeatureVector :=
  ⟨id, "S9", none, 50, "GBP", ty, 10, 50, 10, 1, 50⟩

/-- A store holding sender S9's ten transactions: nine `chip_and_pin` and one
`online`. -/
def freqStore : RecordStore :=
  ⟨[(s9Txn "F1" "chip_and_pin", s9Fv "F1" "chip_and_pin"),
    (s9Txn "F2" "chip_and_pin", s9Fv "F2" "chip_and_pin"),
    (s9Txn "F3" "chip_and_pin", s9Fv "F3" "chip_and_pin"),
    (s9Txn "F4" "chip_and_pin", s9Fv "F4" "chip_and_pin"),
    (s9Txn "F5" "chip_and_pin", s9Fv "F5" "chip_and_pin"),
    (s9Txn "F6" "chip_and_pin", s9Fv "F6" "chip_and_pin"),
    (s9Txn "F7" "chip_and_pin", s9Fv "F7" "chip_and_pin"),
    (s9Txn "F8" "chip_and_pin", s9Fv "F8" "chip_and_pin"),
    (s9Txn "F9" "chip_and_pin", s9Fv "F9" "chip_and_pin"),
    (s9Txn "F10" "online", s9Fv "F10" "online")]⟩

/-! ## Engine lemmas -/

/-- The trace of the sample store's high-value evaluation. -/
def sampleTrace1 : EvalTrace :=
  match evaluate sampleStore "RULE_001" "T1" [] with
  | .ok tr => tr
  | .error _ => ⟨"", "", "", false, []⟩

/-- A concrete interaction sequence: select the sample transaction, then
turn on step-through. -/
def samplePanelEvents : List PanelEvent :=
  [.selectTxn "T1", .toggleStepThrough]

/-- The trace rendered after `samplePanelEvents` under the two-step rule. -/
def samplePanelTrace : EvalTrace :=
  (panelTrace sampleStore "RULE_002"
    (runPanel sampleStore "RULE_002" samplePanelEvents)).getD ⟨"", "", "", false, []⟩

/-! ## Lemmas and claim theorems -/

theorem charDigit_digitChar {d : Nat} (h : d < 10) : charDigit (digitChar d) = d := by
  interval_cases d <;> decide

theorem isDigitChar_digitChar {d : Nat} (h : d < 10) : isDigitChar (digitChar d) = true := by
  interval_cases d <;> decide

theorem foldl_digits_acc (b : List Char) (acc : Nat) :
    b.foldl (fun a c => a * 10 + charDigit c) acc
      = acc * 10 ^ b.length + digitsToNat b := by
  induction b generalizing acc with
  | nil => simp [digitsToNat]
  | cons c t ih =>
    simp only [List.foldl_cons, List.length_cons, digitsToNat]
    rw [ih, ih (0 * 10 + charDigit c)]
    ring

theorem digitsToNat_append (a b : List Char) :
    digitsToNat (a ++ b) = digitsToNat a * 10 ^ b.length + digitsToNat b := by
  unfold digitsToNat
  rw [List.foldl_append, foldl_digits_acc]
  rfl

theorem digitsToNat_natToChars (n : Nat) : digitsToNat (natToChars n) = n := by
  induction n using Nat.strong_induction_on with
  | _ n ih =>
    rw [natToChars]
    split
    · rename_i h
      simp [digitsToNat, charDigit_digitChar h]
    · rename_i h
      rw [digitsToNat_append, ih (n / 10) (Nat.div_lt_self (by omega) (by omega))]
      simp [digitsToNat, charDigit_digitChar (Nat.mod_lt _ (by omega))]
      omega

theorem natToChars_ne_nil (n : Nat) : natToChars n ≠ [] := by
  rw [natToChars]
  split <;> simp

theorem natToChars_all_digits (n : Nat) : (natToChars n).all isDigitChar = true := by
  induction n using Nat.strong_induction_on with
  | _ n ih =>
    rw [natToChars]
    split
    · rename_i h
      simp [isDigitChar_digitChar h]
    · rename_i h
      simp only [List.all_append]
      rw [ih (n / 10) (Nat.div_lt_self (by omega) (by omega))]
      simp [isDigitChar_digitChar (Nat.mod_lt _ (by omega))]

theorem parseDigits_natToChars (n : Nat) : parseDigits (natToChars n) = some n := by
  unfold parseDigits
  rw [if_pos ⟨natToChars_ne_nil n, natToChars_all_digits n⟩, digitsToNat_natToChars]

/-! ### Character-class facts -/

theorem not_space_of_digit {c : Char} (h : isDigitChar c = true) : isSpaceChar c = false := by
  by_contra hs
  simp only [Bool.not_eq_false, isSpaceChar, Bool.or_eq_true, decide_eq_true_eq] at hs
  rcases hs with ((rfl | rfl) | rfl) | rfl <;> simp [isDigitChar] at h

theorem ne_of_not_digit {c c' : Char} (h : isDigitChar c = true)
    (h' : isDigitChar c' = false) : c ≠ c' := by
  rintro rfl
  rw [h] at h'
  exact Bool.true_eq_false.mp h'

theorem not_mem_of_all_digits {s : List Char} {c : Char} (h : s.all isDigitChar = true)
    (hc : isDigitChar c = false) : c ∉ s := by
  intro hmem
  rw [List.all_eq_true] at h
  have := h c hmem
  rw [hc] at this
  exact Bool.false_ne_true this

/-! ### Splitting on a separator character (model of JS `String.prototype.split`) -/

theorem splitAtChar_ne_nil (sep : Char) (s : List Char) : splitAtChar sep s ≠ [] := by
  induction s with
  | nil => simp [splitAtChar]
  | cons c rest ih =>
    rw [splitAtChar]
    split
    · simp
    · split
      · simp
      · simp

theorem splitAtChar_of_not_mem {sep : Char} {s : List Char} (h : sep ∉ s) :
    splitAtChar sep s = [s] := by
  induction s with
  | nil => rfl
  | cons c rest ih =>
    rw [splitAtChar, if_neg (by intro hc; exact h (hc ▸ List.mem_cons_self c rest))]
    rw [ih (fun hm => h (List.mem_cons_of_mem c hm))]

theorem splitAtChar_append_sep {sep : Char} {a : List Char} (r : List Char) (h : sep ∉ a) :
    splitAtChar sep (a ++ sep :: r) = a :: splitAtChar sep r := by
  induction a with
  | nil => simp [splitAtChar]
  | cons c t ih =>
    rw [List.cons_append, splitAtChar,
      if_neg (by intro hc; exact h (hc ▸ List.mem_cons_self c t)),
      ih (fun hm => h (List.mem_cons_of_mem c hm))]

/-! ### Trimming -/

theorem dropWhile_eq_self_of_all {p : Char → Bool} {s : List Char}
    (h : ∀ c ∈ s, p c = false) : s.dropWhile p = s := by
  cases s with
  | nil => rfl
  | cons c t => rw [List.dropWhile_cons, h c (List.mem_cons_self c t)]; rfl

theorem trimChars_eq_self_of_all {s : List Char}
    (h : ∀ c ∈ s, isSpaceChar c = false) : trimChars s = s := by
  unfold trimChars
  rw [dropWhile_eq_self_of_all h,
    dropWhile_eq_self_of_all (fun c hc => h c (List.mem_reverse.mp hc)), List.reverse_reverse]

theorem trimChars_cons_space (s : List Char) : trimChars (' ' :: s) = trimChars s := rfl

/-! ## JS numbers as exact finite decimals

A JavaScript number reaching the override editor is a finite decimal; the
embedding represents it exactly as a mantissa `m : Int` together with a scale
`e : Nat`, denoting `m / 10 ^ e`.  The canonical (JS-observable) form has no
trailing fractional zeros: `e = 0 ∨ m % 10 ≠ 0`. -/

theorem stripZeros_eq_self {m : Int} {e : Nat} (h : e = 0 ∨ m % 10 ≠ 0) :
    stripZeros m e = (m, e) := by
  cases e with
  | zero => rfl
  | succ k =>
    rcases h with h | h
    · exact absurd h (Nat.succ_ne_zero k)
    · rw [stripZeros, if_neg h]

theorem normJS_eq_self {m : Int} {e : Nat} (h : e = 0 ∨ m % 10 ≠ 0) :
    normJS m e = ⟨m, e⟩ := by
  unfold normJS
  rw [stripZeros_eq_self h]

theorem padDigits_length (e n : Nat) : (padDigits e n).length = e := by
  induction e generalizing n with
  | zero => rfl
  | succ k ih => simp [padDigits, ih]

theorem padDigits_all_digits (e n : Nat) : (padDigits e n).all isDigitChar = true := by
  induction e generalizing n with
  | zero => rfl
  | succ k ih =>
    simp only [padDigits, List.all_append, ih]
    simp [isDigitChar_digitChar (Nat.mod_lt _ (by omega))]

theorem digitsToNat_padDigits (e n : Nat) : digitsToNat (padDigits e n) = n % 10 ^ e := by
  induction e generalizing n with
  | zero => simp [padDigits, digitsToNat, Nat.mod_one]
  | succ k ih =>
    rw [padDigits, digitsToNat_append, ih]
    have h1 : digitsToNat [digitChar (n % 10)] = n % 10 := by
      simp [digitsToNat, charDigit_digitChar (Nat.mod_lt _ (by omega))]
    have h2 : n % 10 ^ (k + 1) = n % 10 + 10 * (n / 10 % 10 ^ k) := by
      rw [pow_succ, mul_comm (10 ^ k) 10, Nat.mod_mul]
    simp only [List.length_cons, List.length_nil, h1, pow_one]
    omega

theorem splitSign_of_digit_head {c : Char} (t : List Char) (h : isDigitChar c = true) :
    splitSign (c :: t) = (false, c :: t) := by
  rw [splitSign, if_neg (ne_of_not_digit h (by decide)), if_neg (ne_of_not_digit h (by decide))]

theorem trimChars_of_digits_with {s : List Char} (pre : List Char)
    (hpre : ∀ c ∈ pre, isSpaceChar c = false)
    (h : s.all isDigitChar = true) : trimChars (pre ++ s) = pre ++ s := by
  apply trimChars_eq_self_of_all
  intro c hc
  rcases List.mem_append.mp hc with hc | hc
  · exact hpre c hc
  · exact not_space_of_digit (List.all_eq_true.mp h c hc)

theorem intOfSign_true_of_neg {m : Int} (hm : m < 0) : intOfSign true m.natAbs = m := by
  unfold intOfSign
  rw [if_pos rfl]
  omega

theorem intOfSign_false_of_nonneg {m : Int} (hm : ¬m < 0) : intOfSign false m.natAbs = m := by
  unfold intOfSign
  rw [if_neg (by simp)]
  omega

/-- `Number(String(d)) = d` for every canonical finite decimal. -/
theorem jsParseNum_numToChars (d : JSNum) (h : d.normalized) :
    jsParseNum (numToChars d) = some d := by
  obtain ⟨m, e⟩ := d
  cases e with
  | zero =>
    show jsParseNum (numToChars ⟨m, 0⟩) = some ⟨m, 0⟩
    have hA := natToChars_all_digits m.natAbs
    have hAne := natToChars_ne_nil m.natAbs
    have hnum : numToChars ⟨m, 0⟩ = intToChars m := by rfl
    rw [hnum]
    unfold intToChars
    by_cases hm : m < 0
    · rw [if_pos hm]
      have htrim : trimChars ('-' :: natToChars m.natAbs) = '-' :: natToChars m.natAbs :=
        trimChars_of_digits_with ['-'] (by intro c hc; simp at hc; subst hc; rfl) hA
      have hsign : splitSign ('-' :: natToChars m.natAbs) = (true, natToChars m.natAbs) := by
        rw [splitSign, if_pos rfl]
      unfold jsParseNum
      rw [htrim, if_neg (by simp), hsign]
      rw [splitAtChar_of_not_mem (not_mem_of_all_digits hA (by decide))]
      simp only [jsParseParts, parseDigits_natToChars, Option.map_some']
      rw [intOfSign_true_of_neg hm, normJS_eq_self (Or.inl rfl)]
    · rw [if_neg hm]
      obtain ⟨c, t, hct⟩ : ∃ c t, natToChars m.natAbs = c :: t := by
        cases hcase : natToChars m.natAbs with
        | nil => exact absurd hcase hAne
        | cons c t => exact ⟨c, t, rfl⟩
      have hcd : isDigitChar c = true := by
        have := hA
        rw [hct, List.all_cons, Bool.and_eq_true] at this
        exact this.1
      have htrim : trimChars (natToChars m.natAbs) = natToChars m.natAbs :=
        trimChars_of_digits_with [] (by intro c hc; simp at hc) hA
      unfold jsParseNum
      rw [htrim, if_neg (by rw [hct]; simp), hct, splitSign_of_digit_head t hcd, ← hct]
      rw [splitAtChar_of_not_mem (not_mem_of_all_digits hA (by decide))]
      simp only [jsParseParts, parseDigits_natToChars, Option.map_some']
      rw [intOfSign_false_of_nonneg hm, normJS_eq_self (Or.inl rfl)]
  | succ k =>
    have hm10 : m % 10 ≠ 0 := by
      rcases h with h | h
      · exact absurd h (by simp)
      · exact h
    have he : k + 1 ≠ 0 := Nat.succ_ne_zero k
    set A := natToChars (m.natAbs / 10 ^ (k + 1)) with hAdef
    set B := padDigits (k + 1) (m.natAbs % 10 ^ (k + 1)) with hBdef
    have hA := natToChars_all_digits (m.natAbs / 10 ^ (k + 1))
    have hAne : A ≠ [] := natToChars_ne_nil _
    have hB : B.all isDigitChar = true := padDigits_all_digits _ _
    have hBlen : B.length = k + 1 := padDigits_length _ _
    have hnum : numToChars ⟨m, k + 1⟩
        = (if m < 0 then ['-'] else []) ++ A ++ '.' :: B := by
      unfold numToChars
      rw [if_neg he]
    have hsplitdot : splitAtChar '.' (A ++ '.' :: B) = [A, B] := by
      rw [splitAtChar_append_sep B (not_mem_of_all_digits hA (by decide)),
        splitAtChar_of_not_mem (not_mem_of_all_digits hB (by decide))]
    have hABne : A ++ B ≠ [] := by
      intro hcon
      exact hAne (List.append_eq_nil.mp hcon).1
    have hABdig : (A ++ B).all isDigitChar = true := by
      rw [List.all_append, hA, hB]
      rfl
    have hval : digitsToNat (A ++ B) = m.natAbs := by
      rw [digitsToNat_append, hBlen, digitsToNat_natToChars, digitsToNat_padDigits,
        Nat.mod_mod_of_dvd _ dvd_rfl]
      exact Nat.div_add_mod' _ _
    have hnospaceAB : ∀ c ∈ A ++ '.' :: B, isSpaceChar c = false := by
      intro c hc
      rcases List.mem_append.mp hc with hc | hc
      · exact not_space_of_digit (List.all_eq_true.mp hA c hc)
      · rcases List.mem_cons.mp hc with rfl | hc
        · rfl
        · exact not_space_of_digit (List.all_eq_true.mp hB c hc)
    rw [hnum]
    by_cases hm : m < 0
    · rw [if_pos hm]
      have hstr : ['-'] ++ A ++ '.' :: B = '-' :: (A ++ '.' :: B) := rfl
      rw [hstr]
      have htrim : trimChars ('-' :: (A ++ '.' :: B)) = '-' :: (A ++ '.' :: B) := by
        apply trimChars_eq_self_of_all
        intro c hc
        rcases List.mem_cons.mp hc with rfl | hc
        · rfl
        · exact hnospaceAB c hc
      have hsign : splitSign ('-' :: (A ++ '.' :: B)) = (true, A ++ '.' :: B) := by
        rw [splitSign, if_pos rfl]
      unfold jsParseNum
      rw [htrim, if_neg (by simp), hsign, hsplitdot]
      simp only [jsParseParts, if_pos (And.intro hABne hABdig), hval, hBlen]
      rw [intOfSign_true_of_neg hm, normJS_eq_self (Or.inr hm10)]
    · rw [if_neg hm]
      obtain ⟨c, t, hct⟩ : ∃ c t, A = c :: t := by
        cases hcase : A with
        | nil => exact absurd hcase hAne
        | cons c t => exact ⟨c, t, rfl⟩
      have hcd : isDigitChar c = true := by
        have h2 : (c :: t).all isDigitChar = true := by
          rw [← hct]
          exact hA
        rw [List.all_cons, Bool.and_eq_true] at h2
        exact h2.1
      have htrim : trimChars (A ++ '.' :: B) = A ++ '.' :: B :=
        trimChars_eq_self_of_all hnospaceAB
      have hsign : splitSign (A ++ '.' :: B) = (false, A ++ '.' :: B) := by
        rw [hct, List.cons_append, splitSign_of_digit_head _ hcd, ← List.cons_append, ← hct]
      unfold jsParseNum
      rw [List.nil_append, htrim, if_neg (by rw [hct]; simp), hsign, hsplitdot]
      simp only [jsParseParts, if_pos (And.intro hABne hABdig), hval, hBlen]
      rw [intOfSign_false_of_nonneg hm, normJS_eq_self (Or.inr hm10)]

/-! ## UI values (JSON values flowing through the override editor)

Embedding of `frontend/src/components/ThresholdOverrides.tsx`: rule parameter
values arriving from the `defaults` endpoint are numbers, strings, arrays of
strings, or null. -/

theorem getKey_removeKey_self (k : String) (l : List (String × JSVal)) :
    getKey k (removeKey k l) = none := by
  induction l with
  | nil => rfl
  | cons p t ih =>
    unfold removeKey at ih ⊢
    rw [List.filter_cons]
    split
    · rename_i hp
      simp only [decide_eq_true_eq] at hp
      rw [getKey, if_neg hp]
      exact ih
    · exact ih

theorem getKey_removeKey_ne {k k' : String} (l : List (String × JSVal)) (h : k' ≠ k) :
    getKey k' (removeKey k l) = getKey k' l := by
  induction l with
  | nil => rfl
  | cons p t ih =>
    unfold removeKey at ih ⊢
    rw [List.filter_cons]
    split
    · rw [getKey, getKey, ih]
    · rename_i hp
      simp only [decide_eq_true_eq, not_not] at hp
      rw [getKey, if_neg (by rw [hp]; exact fun hc => h hc.symm), ih]

theorem getKey_setKey_self (k : String) (v : JSVal) (l : List (String × JSVal)) :
    getKey k (setKey k v l) = some v := by
  unfold setKey
  induction l with
  | nil =>
    rw [removeKey, List.filter_nil, List.nil_append, getKey, if_pos rfl]
  | cons p t ih =>
    unfold removeKey at ih ⊢
    rw [List.filter_cons]
    split
    · rename_i hp
      simp only [decide_eq_true_eq] at hp
      rw [List.cons_append, getKey, if_neg hp]
      exact ih
    · exact ih

theorem getKey_setKey_ne {k k' : String} (v : JSVal) (l : List (String × JSVal))
    (h : k' ≠ k) : getKey k' (setKey k v l) = getKey k' l := by
  unfold setKey
  induction l with
  | nil =>
    rw [removeKey, List.filter_nil, List.nil_append]
    simp only [getKey]
    rw [if_neg (fun hc => h hc.symm)]
  | cons p t ih =>
    unfold removeKey at ih ⊢
    rw [List.filter_cons]
    split
    · rw [List.cons_append, getKey, getKey]
      split
      · rfl
      · exact ih
    · rename_i hp
      simp only [decide_eq_true_eq, not_not] at hp
      rw [getKey, if_neg (by rw [hp]; exact fun hc => h hc.symm), ih]

/-! ### Round-trip of the array branch of `parseValue` -/

theorem processed_cons_space (r : List Char) :
    ((splitAtChar ',' (' ' :: r)).map trimChars).filter (fun s => s ≠ [])
      = ((splitAtChar ',' r).map trimChars).filter (fun s => s ≠ []) := by
  obtain ⟨h0, t0, heq⟩ : ∃ a b, splitAtChar ',' r = a :: b := by
    cases hc : splitAtChar ',' r with
    | nil => exact absurd hc (splitAtChar_ne_nil ',' r)
    | cons a b => exact ⟨a, b, rfl⟩
  have hs : splitAtChar ',' (' ' :: r) = (' ' :: h0) :: t0 := by
    rw [splitAtChar, if_neg (by decide), heq]
  rw [hs, heq, List.map_cons, List.map_cons, trimChars_cons_space]

theorem split_trim_filter_join (v : List (List Char))
    (hv : ∀ s ∈ v, s ≠ [] ∧ ',' ∉ s ∧ trimChars s = s) :
    ((splitAtChar ',' (joinSep [',', ' '] v)).map trimChars).filter (fun s => s ≠ []) = v := by
  induction v with
  | nil => rfl
  | cons x xs ih =>
    obtain ⟨hxne, hxc, hxt⟩ := hv x (List.mem_cons_self x xs)
    cases xs with
    | nil =>
      rw [show joinSep [',', ' '] [x] = x from rfl]
      rw [splitAtChar_of_not_mem hxc, List.map_cons, List.map_nil, hxt]
      simp [hxne]
    | cons y t =>
      have hjoin : joinSep [',', ' '] (x :: y :: t)
          = x ++ ',' :: ' ' :: joinSep [',', ' '] (y :: t) := by
        rw [joinSep]
        simp [List.append_assoc]
      rw [hjoin, splitAtChar_append_sep _ hxc, List.map_cons, hxt, List.filter_cons]
      rw [if_pos (by simp [hxne])]
      rw [processed_cons_space, ih (fun s hs => hv s (List.mem_cons_of_mem x hs))]

/-! ## The evaluation engine

The Python backend (`backend/app/data_store.py`, `rules.py`, `main.py`) is not
part of the sources under review; everything below the fold is modelled from
the specification (§3–§4.6) and the repository README's rule table.  Engine
numerics are exact rationals. -/

theorem all_eq_foldr_and (l : List EvalStep) :
    l.all (fun st => st.passed)
      = (l.map (fun st => st.passed)).foldr (fun a b => a && b) true := by
  induction l with
  | nil => rfl
  | cons st t ih => simp only [List.all_cons, List.map_cons, List.foldr_cons, ih]

theorem evaluate_parse_some {rid : String} {r : RuleId} (store : RecordStore)
    (tid : String) (ov : List (String × OverrideVal)) (h : parseRule rid = some r) :
    evaluate store rid tid ov = evaluateWithRule store r rid tid ov := by
  unfold evaluate
  rw [h]

theorem evaluate_ok_form {store : RecordStore} {rid tid : String} {r : RuleId}
    {rec : Transaction × FeatureVector} {ov : List (String × OverrideVal)}
    {ps : List (String × ParamValue)}
    (h1 : parseRule rid = some r) (h2 : findRecord store tid = some rec)
    (h3 : mergeParams (ruleDefaults r) ov = .ok ps) :
    evaluate store rid tid ov
      = .ok ⟨rid, ruleName r, tid,
          (mkSteps r rec.1 rec.2 (profileOf store rec.1.sender_account_id) ps).all
            (fun st => st.passed),
          mkSteps r rec.1 rec.2 (profileOf store rec.1.sender_account_id) ps⟩ := by
  rw [evaluate_parse_some store tid ov h1]
  unfold evaluateWithRule
  rw [h2, h3]

theorem evaluate_ok_fired {store : RecordStore} {rid tid : String}
    {ov : List (String × OverrideVal)} {tr : EvalTrace}
    (h : evaluate store rid tid ov = .ok tr) :
    tr.fired = tr.steps.all (fun st => st.passed) := by
  unfold evaluate at h
  split at h
  · exact Except.noConfusion h
  · unfold evaluateWithRule at h
    split at h
    · exact Except.noConfusion h
    · split at h
      · exact Except.noConfusion h
      · injection h with h
        rw [← h]

theorem mkSteps_length (r : RuleId) (t : Transaction) (fv : FeatureVector)
    (prof : SenderProfile) (ps : List (String × ParamValue)) :
    (mkSteps r t fv prof ps).length = stepCount r := by
  cases r <;> rfl

theorem stepCount_pos (r : RuleId) : 0 < stepCount r := by
  cases r <;> decide

theorem evaluate_ok_steps_length {store : RecordStore} {rid tid : String}
    {ov : List (String × OverrideVal)} {tr : EvalTrace} {r : RuleId}
    (hr : parseRule rid = some r) (h : evaluate store rid tid ov = .ok tr) :
    tr.steps.length = stepCount r := by
  unfold evaluate at h
  split at h
  · exact Except.noConfusion h
  · rename_i r' hr'
    have hrr : r = r' := by
      rw [hr] at hr'
      injection hr'
    subst hrr
    unfold evaluateWithRule at h
    split at h
    · exact Except.noConfusion h
    · split at h
      · exact Except.noConfusion h
      · injection h with h
        rw [← h]
        exact mkSteps_length _ _ _ _ _

theorem length_filter_add_length_filter_not {α : Type} (l : List α) (p : α → Bool) :
    (l.filter p).length + (l.filter (fun a => !p a)).length = l.length := by
  induction l with
  | nil => rfl
  | cons a t ih =>
    rw [List.filter_cons, List.filter_cons]
    cases hp : p a
    · rw [if_neg (by simp [hp]), if_pos (by simp [hp])]
      simp only [List.length_cons]
      omega
    · rw [if_pos (by simp [hp]), if_neg (by simp [hp])]
      simp only [List.length_cons]
      omega

theorem evaluateWithRule_congr {store : RecordStore} {r : RuleId} {rid tid : String}
    {ov1 ov2 : List (String × OverrideVal)}
    (h : mergeParams (ruleDefaults r) ov1 = mergeParams (ruleDefaults r) ov2) :
    evaluateWithRule store r rid tid ov1 = evaluateWithRule store r rid tid ov2 := by
  unfold evaluateWithRule
  rw [h]

theorem mergeParam_error_shape {p : String × ParamValue}
    {ov : List (String × OverrideVal)} {e : EvalError}
    (h : mergeParam p ov = .error e) :
    e = .invalidOverride p.1 (paramTypeName p.2) := by
  unfold mergeParam at h
  split at h
  · exact Except.noConfusion h
  · split at h
    · exact Except.noConfusion h
    · injection h with h
      rw [← h]

theorem mergeParams_error_shape {defaults : List (String × ParamValue)}
    {ov : List (String × OverrideVal)} {e : EvalError}
    (h : mergeParams defaults ov = .error e) :
    ∃ name ty, e = .invalidOverride name ty := by
  induction defaults with
  | nil => exact Except.noConfusion h
  | cons p t ih =>
    rw [mergeParams] at h
    split at h
    · rename_i e1 heq
      injection h with h
      subst h
      exact ⟨_, _, mergeParam_error_shape heq⟩
    · split at h
      · rename_i e1 heq
        injection h with h
        subst h
        exact ih heq
      · exact Except.noConfusion h

theorem mergeParams_ok_forall2 {defaults : List (String × ParamValue)}
    {ov : List (String × OverrideVal)} {eff : List (String × ParamValue)}
    (h : mergeParams defaults ov = .ok eff) :
    List.Forall₂
      (fun (p q : String × ParamValue) =>
        q.1 = p.1 ∧
          ((assocLookup p.1 ov = none ∧ q.2 = p.2) ∨
            (∃ o, assocLookup p.1 ov = some o ∧ coerceOverride p.2 o = some q.2)))
      defaults eff := by
  induction defaults generalizing eff with
  | nil =>
    injection h with h
    rw [← h]
    exact List.Forall₂.nil
  | cons p t ih =>
    rw [mergeParams] at h
    split at h
    · exact Except.noConfusion h
    · rename_i q hq
      split at h
      · exact Except.noConfusion h
      · rename_i rest hrest
        injection h with h
        rw [← h]
        refine List.Forall₂.cons ?_ (ih hrest)
        unfold mergeParam at hq
        split at hq
        · rename_i hlook
          injection hq with hq
          rw [← hq]
          exact ⟨rfl, Or.inl ⟨hlook, rfl⟩⟩
        · rename_i o hlook
          split at hq
          · rename_i v hco
            injection hq with hq
            rw [← hq]
            exact ⟨rfl, Or.inr ⟨o, hlook, hco⟩⟩
          · exact Except.noConfusion hq

/-! ## Panel lemmas -/

theorem panelTrace_some_steps_length {store : RecordStore} {rid : String}
    {s : PanelState} {tr : EvalTrace} {r : RuleId}
    (hr : parseRule rid = some r) (htr : panelTrace store rid s = some tr) :
    tr.steps.length = stepCount r := by
  unfold panelTrace at htr
  split at htr
  · exact Option.noConfusion htr
  · rename_i tid htid
    cases he : evaluate store rid tid s.overrides with
    | error e =>
      rw [he] at htr
      exact Option.noConfusion htr
    | ok tr' =>
      rw [he] at htr
      injection htr with htr
      subst htr
      exact evaluate_ok_steps_length hr he

theorem panelStep_preserves {store : RecordStore} {rid : String} {r : RuleId}
    (hr : parseRule rid = some r) (s : PanelState) (ev : PanelEvent)
    (hI : s.stepThrough = true → s.visibleStep < stepCount r) :
    (panelStep store rid s ev).stepThrough = true →
      (panelStep store rid s ev).visibleStep < stepCount r := by
  cases ev with
  | selectTxn tid => exact hI
  | clearTxn => exact hI
  | setOverrides ov => exact hI
  | toggleStepThrough =>
    simp only [panelStep]
    split
    · intro _
      exact stepCount_pos r
    · exact hI
  | prevStep =>
    simp only [panelStep]
    split
    · rename_i hcond
      intro _
      have := hI hcond.1
      show s.visibleStep - 1 < stepCount r
      omega
    · exact hI
  | nextStep =>
    simp only [panelStep]
    split
    · rename_i hcond
      intro _
      obtain ⟨hst, hsome, hlt⟩ := hcond
      obtain ⟨tr, htr⟩ := Option.isSome_iff_exists.mp hsome
      have hts : totalSteps store rid s = stepCount r := by
        unfold totalSteps
        rw [htr]
        exact panelTrace_some_steps_length hr htr
      rw [hts] at hlt
      show s.visibleStep + 1 < stepCount r
      omega
    · exact hI

theorem runPanel_inv (store : RecordStore) (rid : String) (r : RuleId)
    (hr : parseRule rid = some r) (events : List PanelEvent) :
    (runPanel store rid events).stepThrough = true →
      (runPanel store rid events).visibleStep < stepCount r := by
  unfold runPanel
  have hrun : ∀ (s : PanelState), (s.stepThrough = true → s.visibleStep < stepCount r) →
      ((events.foldl (panelStep store rid) s).stepThrough = true →
        (events.foldl (panelStep store rid) s).visibleStep < stepCount r) := by
    induction events with
    | nil => exact fun s hs => hs
    | cons ev t ih =>
      intro s hs
      rw [List.foldl_cons]
      exact ih _ (panelStep_preserves hr s ev hs)
  exact hrun initPanel (by intro hc; exact absurd hc (by decide))

/-! ## Claim theorems -/

/-- C1: for every rule, transaction and effective parameter mapping, a
successful `evaluate` returns a trace whose `fired` field equals the logical
AND of the `passed` flags of all its steps — the single AND-of-steps policy
shared by all seven rules. -/
theorem evaluate_fired_eq_and_of_steps (store : RecordStore)
    (rule_id transaction_id : String) (overrides : List (String × OverrideVal))
    (tr : EvalTrace) (h : evaluate store rule_id transaction_id overrides = .ok tr) :
    tr.fired = (tr.steps.map (fun st => st.passed)).foldr (fun a b => a && b) true := by
  rw [evaluate_ok_fired h, all_eq_foldr_and]

/-- Witness for C1 at a concrete evaluation. -/
theorem evaluate_fired_eq_and_of_steps_witness :
    sampleTrace1.fired
      = (sampleTrace1.steps.map (fun st => st.passed)).foldr (fun a b => a && b) true :=
  evaluate_fired_eq_and_of_steps sampleStore "RULE_001" "T1" [] sampleTrace1 (by rfl)

/-- C2: `evaluate` is a pure function of (rule id, transaction id, effective
parameters): two override mappings that merge to identical effective
parameters yield identical traces — no hidden state, no time-dependence. -/
theorem evaluate_deterministic_in_effective_params (store : RecordStore)
    (rule_id transaction_id : String) (r : RuleId)
    (ov1 ov2 : List (String × OverrideVal))
    (hr : parseRule rule_id = some r)
    (h : mergeParams (ruleDefaults r) ov1 = mergeParams (ruleDefaults r) ov2) :
    evaluate store rule_id transaction_id ov1
      = evaluate store rule_id transaction_id ov2 := by
  rw [evaluate_parse_some store transaction_id ov1 hr,
    evaluate_parse_some store transaction_id ov2 hr]
  exact evaluateWithRule_congr h

/-- Witness for C2: an override naming no parameter of the rule merges to the
defaults, so the trace is byte-identical to the override-free call. -/
theorem evaluate_deterministic_in_effective_params_witness :
    evaluate sampleStore "RULE_001" "T1" [("zzz", OverrideVal.num 1)]
      = evaluate sampleStore "RULE_001" "T1" [] :=
  evaluate_deterministic_in_effective_params sampleStore "RULE_001" "T1" .highValue
    [("zzz", OverrideVal.num 1)] [] rfl rfl

/-- C3 counterexample: for a multi-element array default, typing the
parameter's display string (`toDisplayString`, a `", "` join) back into the
input does NOT remove the key from the override mapping — the commit compares
against `String(defaultVal)` (a `","` join without spaces), so the key stays,
set to a re-parsed value. -/
theorem handleInput_display_string_not_removed :
    getKey "high_risk_countries"
      (handleInput
        [("high_risk_countries", JSVal.arr [['P', 'R', 'K'], ['I', 'R', 'N']])] []
        "high_risk_countries"
        (toDisplayString (JSVal.arr [['P', 'R', 'K'], ['I', 'R', 'N']])))
      = some (JSVal.arr [['P', 'R', 'K'], ['I', 'R', 'N']]) := by
  decide

/-- C3 amended: the backend merge replaces exactly the override-named
parameters, keeping all others at default; in the UI, an input left empty or
equal to `String(default)` — the comma-join without spaces, which coincides
with the display string for numbers, scalars and arrays of at most one
element, but not for multi-element arrays — is removed from the override
mapping, any other input sets the key to `parseValue(raw, default)`, other
keys are untouched, and only the explicitly overridden keys are serialized
into the evaluate request. -/
theorem override_merge_and_ui_remove_amended :
    (∀ (defaults : List (String × ParamValue)) (ov : List (String × OverrideVal))
        (eff : List (String × ParamValue)),
      mergeParams defaults ov = .ok eff →
      List.Forall₂ (fun p q => q.1 = p.1 ∧
        ((assocLookup p.1 ov = none ∧ q.2 = p.2) ∨
          (∃ o, assocLookup p.1 ov = some o ∧ coerceOverride p.2 o = some q.2)))
        defaults eff)
    ∧ (∀ (params overrides : List (String × JSVal)) (key : String) (raw : List Char),
        ((raw = [] ∨ raw = jsStringOf ((getKey key params).getD .null)) →
          getKey key (handleInput params overrides key raw) = none)
        ∧ (¬(raw = [] ∨ raw = jsStringOf ((getKey key params).getD .null)) →
          getKey key (handleInput params overrides key raw)
            = some (parseValue raw ((getKey key params).getD .null)))
        ∧ ∀ k', k' ≠ key →
            getKey k' (handleInput params overrides key raw) = getKey k' overrides)
    ∧ (∀ (ov l : List (String × JSVal)), overridesJson ov = some l →
        l.map Prod.fst = ov.map Prod.fst) := by
  refine ⟨?_, ?_, ?_⟩
  · intro defaults ov eff h
    exact mergeParams_ok_forall2 h
  · intro params overrides key raw
    refine ⟨?_, ?_, ?_⟩
    · intro hcond
      unfold handleInput
      rw [if_pos hcond]
      exact getKey_removeKey_self key overrides
    · intro hcond
      unfold handleInput
      rw [if_neg hcond]
      exact getKey_setKey_self key _ overrides
    · intro k' hk
      unfold handleInput
      split
      · exact getKey_removeKey_ne overrides hk
      · exact getKey_setKey_ne _ overrides hk
  · intro ov l h
    unfold overridesJson at h
    split at h
    · exact Option.noConfusion h
    · injection h with h
      rw [h]

/-- Witness for the C3 amended theorem: an emptied input removes the key. -/
theorem override_merge_and_ui_remove_amended_witness :
    getKey "threshold"
      (handleInput [("threshold", JSVal.num ⟨2048, 0⟩)]
        [("threshold", JSVal.num ⟨9, 0⟩)] "threshold" [])
      = none :=
  (override_merge_and_ui_remove_amended.2.1 [("threshold", JSVal.num ⟨2048, 0⟩)]
    [("threshold", JSVal.num ⟨9, 0⟩)] "threshold" []).1 (Or.inl rfl)

/-- C5: override coercion is driven by the parameter's declared/default type:
a numeric default converts numeric input with `Number`, an array default
splits on commas, trims, and drops empties; a coerced value always has the
declared type's shape, a non-coercible value fails the merge with
`InvalidOverrideError` naming the parameter and its expected type, and
`evaluate` surfaces exactly that error. -/
theorem override_coercion_typed :
    (∀ (raw : List Char) (d n : JSNum), jsParseNum raw = some n →
        parseValue raw (.num d) = .num n)
    ∧ (∀ (raw : List Char) (l : List (List Char)),
        parseValue raw (.arr l)
          = .arr (((splitAtChar ',' raw).map trimChars).filter (fun s => s ≠ [])))
    ∧ (∀ (dflt : ParamValue) (o : OverrideVal) (v : ParamValue),
        coerceOverride dflt o = some v → paramTypeName v = paramTypeName dflt)
    ∧ (∀ (name : String) (dflt : ParamValue) (o : OverrideVal),
        coerceOverride dflt o = none →
        mergeParam (name, dflt) [(name, o)]
          = .error (.invalidOverride name (paramTypeName dflt)))
    ∧ (∀ (store : RecordStore) (rid tid : String) (ov : List (String × OverrideVal))
        (e : EvalError) (r : RuleId) (rec : Transaction × FeatureVector),
        parseRule rid = some r → findRecord store tid = some rec →
        mergeParams (ruleDefaults r) ov = .error e →
        evaluate store rid tid ov = .error e ∧ ∃ name ty, e = .invalidOverride name ty) := by
  refine ⟨?_, ?_, ?_, ?_, ?_⟩
  · intro raw d n h
    simp only [parseValue]
    rw [h]
  · intro raw l
    rfl
  · intro dflt o v h
    cases dflt <;> cases o <;> (try exact Option.noConfusion h) <;>
      (injection h with h; rw [← h]; rfl)
  · intro name dflt o h
    simp [mergeParam, assocLookup, h]
  · intro store rid tid ov e r rec h1 h2 h3
    constructor
    · rw [evaluate_parse_some store tid ov h1]
      unfold evaluateWithRule
      rw [h2, h3]
    · exact mergeParams_error_shape h3

/-- Witness for C5 at concrete inputs: a numeric string parses against a
numeric default, and a list override for a numeric parameter fails with the
named `InvalidOverrideError`. -/
theorem override_coercion_typed_witness :
    parseValue ['3'] (.num ⟨2048, 0⟩) = .num ⟨3, 0⟩
    ∧ mergeParam ("threshold", .num 2048) [("threshold", .list ["a"])]
        = .error (.invalidOverride "threshold" "number") :=
  ⟨override_coercion_typed.1 ['3'] ⟨2048, 0⟩ ⟨3, 0⟩ (by decide),
    override_coercion_typed.2.2.2.1 "threshold" (.num 2048) (.list ["a"]) (by rfl)⟩

/-- C6: in the Stats Cache built once at startup under default parameters,
every rule's fired and not-fired counts partition the transactions —
`fired_count + not_fired_count = total_transactions` — the fire rate is
fired over total, and serving an override evaluation returns the application
state (and hence the cache) unchanged. -/
theorem ruleStats_partition_and_immutable (store : RecordStore) (r : RuleId) :
    (buildRuleStats store r).total_transactions = store.records.length
    ∧ (buildRuleStats store r).fired_count + (buildRuleStats store r).not_fired_count
        = store.records.length
    ∧ (buildRuleStats store r).fire_rate
        = ((buildRuleStats store r).fired_count : ℚ)
            / ((buildRuleStats store r).total_transactions : ℚ)
    ∧ (∀ (app : App) (rid tid : String) (ov : List (String × OverrideVal)),
        (appEvaluate app rid tid ov).2 = app)
    ∧ (∀ (rid tid : String) (ov : List (String × OverrideVal)),
        (appEvaluate (startApp store) rid tid ov).2.stats r = buildRuleStats store r) := by
  refine ⟨rfl, ?_, rfl, fun app rid tid ov => rfl, fun rid tid ov => rfl⟩
  exact length_filter_add_length_filter_not store.records (defaultFired store r)

/-- C7: for the high-value rule and any stored transaction with amount 2500,
the default call (threshold 2048) fires and the threshold-3000 call does
not; both traces carry the single amount step with `actual` 2500, and only
its `threshold` and `passed` differ. -/
theorem highValue_override_example (store : RecordStore) (tid : String)
    (t : Transaction) (fv : FeatureVector)
    (hfind : findRecord store tid = some (t, fv))
    (hamount : t.amount = 2500) :
    ∃ tr1 tr2,
      evaluate store "RULE_001" tid [] = .ok tr1
      ∧ evaluate store "RULE_001" tid [("threshold", .num 3000)] = .ok tr2
      ∧ tr1.fired = true ∧ tr2.fired = false
      ∧ ∃ s1 s2, tr1.steps = [s1] ∧ tr2.steps = [s2]
        ∧ s1.actual = .num 2500 ∧ s2.actual = .num 2500
        ∧ s1.threshold = .num 2048 ∧ s2.threshold = .num 3000
        ∧ s1.passed = true ∧ s2.passed = false
        ∧ s1.name = s2.name ∧ s1.field = s2.field ∧ s1.operator = s2.operator := by
  have h1 : parseRule "RULE_001" = some .highValue := rfl
  have hm1 : mergeParams (ruleDefaults .highValue) []
      = .ok [("threshold", ParamValue.num 2048)] := rfl
  have hm2 : mergeParams (ruleDefaults .highValue) [("threshold", .num 3000)]
      = .ok [("threshold", ParamValue.num 3000)] := rfl
  have hsteps1 : mkSteps .highValue t fv (profileOf store t.sender_account_id)
      [("threshold", ParamValue.num 2048)]
      = [⟨"High value", "amount", ">", .num 2048, .num 2500, true⟩] := by
    show [(⟨"High value", "amount", ">", .num 2048, .num t.amount,
      decide (t.amount > 2048)⟩ : EvalStep)] = _
    rw [hamount]
    decide
  have hsteps2 : mkSteps .highValue t fv (profileOf store t.sender_account_id)
      [("threshold", ParamValue.num 3000)]
      = [⟨"High value", "amount", ">", .num 3000, .num 2500, false⟩] := by
    show [(⟨"High value", "amount", ">", .num 3000, .num t.amount,
      decide (t.amount > 3000)⟩ : EvalStep)] = _
    rw [hamount]
    decide
  refine ⟨⟨"RULE_001", ruleName .highValue, tid, true,
      [⟨"High value", "amount", ">", .num 2048, .num 2500, true⟩]⟩,
    ⟨"RULE_001", ruleName .highValue, tid, false,
      [⟨"High value", "amount", ">", .num 3000, .num 2500, false⟩]⟩,
    ?_, ?_, rfl, rfl,
    ⟨_, _, rfl, rfl, rfl, rfl, rfl, rfl, rfl, rfl, rfl, rfl, rfl⟩⟩
  · rw [evaluate_ok_form h1 hfind hm1, hsteps1]
    rfl
  · rw [evaluate_ok_form h1 hfind hm2, hsteps2]
    rfl

/-- Witness for C7 on the concrete one-record store. -/
theorem highValue_override_example_witness :
    ∃ tr1 tr2,
      evaluate sampleStore "RULE_001" "T1" [] = .ok tr1
      ∧ evaluate sampleStore "RULE_001" "T1" [("threshold", .num 3000)] = .ok tr2
      ∧ tr1.fired = true ∧ tr2.fired = false
      ∧ ∃ s1 s2, tr1.steps = [s1] ∧ tr2.steps = [s2]
        ∧ s1.actual = .num 2500 ∧ s2.actual = .num 2500
        ∧ s1.threshold = .num 2048 ∧ s2.threshold = .num 3000
        ∧ s1.passed = true ∧ s2.passed = false
        ∧ s1.name = s2.name ∧ s1.field = s2.field ∧ s1.operator = s2.operator :=
  highValue_override_example sampleStore "T1" sampleTxn sampleFv (by rfl) (by rfl)

/-- C8: a sender with nine observed `chip_and_pin` transactions and one
`online` transaction has frequency 0.1 for `online`; the unusual-type rule
(strict less-than) does not fire on that sender's online transaction at the
default threshold 0.10, and does fire at an overridden threshold 0.15. -/
theorem unusualType_frequency_example (store : RecordStore) (tid sender : String)
    (t : Transaction) (fv : FeatureVector)
    (hfind : findRecord store tid = some (t, fv))
    (hsender : t.sender_account_id = sender)
    (htype : t.transaction_type = "online")
    (_hchip : (senderTxns store sender).countP
      (fun x => x.transaction_type = "chip_and_pin") = 9)
    (honline : (senderTxns store sender).countP
      (fun x => x.transaction_type = "online") = 1)
    (hlen : (senderTxns store sender).length = 10) :
    (profileOf store sender).type_freq "online" = 1 / 10
    ∧ (∃ tr, evaluate store "RULE_003" tid [] = .ok tr ∧ tr.fired = false)
    ∧ (∃ tr, evaluate store "RULE_003" tid [("threshold", .num (3 / 20))] = .ok tr
        ∧ tr.fired = true) := by
  have hfreq : (profileOf store sender).type_freq "online" = 1 / 10 := by
    show typeFreqOf (senderTxns store sender) "online" = 1 / 10
    unfold typeFreqOf
    rw [honline, hlen]
    norm_num
  have h1 : parseRule "RULE_003" = some .unusualType := rfl
  have hm1 : mergeParams (ruleDefaults .unusualType) []
      = .ok [("threshold", ParamValue.num (1 / 10))] := rfl
  have hm2 : mergeParams (ruleDefaults .unusualType) [("threshold", .num (3 / 20))]
      = .ok [("threshold", ParamValue.num (3 / 20))] := rfl
  have hsteps1 : mkSteps .unusualType t fv (profileOf store t.sender_account_id)
      [("threshold", ParamValue.num (1 / 10))]
      = [⟨"Rare type for sender", "transaction_type_frequency", "<", .num (1 / 10),
          .num (1 / 10), false⟩] := by
    show [(⟨"Rare type for sender", "transaction_type_frequency", "<", .num (1 / 10),
      .num ((profileOf store t.sender_account_id).type_freq t.transaction_type),
      decide ((profileOf store t.sender_account_id).type_freq t.transaction_type
        < 1 / 10)⟩ : EvalStep)] = _
    rw [hsender, htype, hfreq]
    rw [decide_eq_false (by norm_num : ¬((1 : ℚ) / 10 < 1 / 10))]
  have hsteps2 : mkSteps .unusualType t fv (profileOf store t.sender_account_id)
      [("threshold", ParamValue.num (3 / 20))]
      = [⟨"Rare type for sender", "transaction_type_frequency", "<", .num (3 / 20),
          .num (1 / 10), true⟩] := by
    show [(⟨"Rare type for sender", "transaction_type_frequency", "<", .num (3 / 20),
      .num ((profileOf store t.sender_account_id).type_freq t.transaction_type),
      decide ((profileOf store t.sender_account_id).type_freq t.transaction_type
        < 3 / 20)⟩ : EvalStep)] = _
    rw [hsender, htype, hfreq]
    rw [decide_eq_true (by norm_num : (1 : ℚ) / 10 < 3 / 20)]
  refine ⟨hfreq, ⟨_, evaluate_ok_form h1 hfind hm1, ?_⟩,
    ⟨_, evaluate_ok_form h1 hfind hm2, ?_⟩⟩
  · show (mkSteps .unusualType t fv (profileOf store t.sender_account_id)
      [("threshold", ParamValue.num (1 / 10))]).all (fun st => st.passed) = false
    rw [hsteps1]
    rfl
  · show (mkSteps .unusualType t fv (profileOf store t.sender_account_id)
      [("threshold", ParamValue.num (3 / 20))]).all (fun st => st.passed) = true
    rw [hsteps2]
    rfl

/-- Witness for C8 on the concrete ten-transaction store. -/
theorem unusualType_frequency_example_witness :
    (profileOf freqStore "S9").type_freq "online" = 1 / 10
    ∧ (∃ tr, evaluate freqStore "RULE_003" "F10" [] = .ok tr ∧ tr.fired = false)
    ∧ (∃ tr, evaluate freqStore "RULE_003" "F10" [("threshold", .num (3 / 20))] = .ok tr
        ∧ tr.fired = true) :=
  unusualType_frequency_example freqStore "F10" "S9" (s9Txn "F10" "online")
    (s9Fv "F10" "online") (by rfl) rfl rfl (by decide) (by decide) (by decide)

/-- C9: in step-through mode the visible-step index is always within the
bounds of the currently rendered trace's step list — it starts at 0, is
reset to 0 on toggle, Prev is disabled at 0 and Next at the last index — so
in every UI state reachable by interactions within one mounted panel
(including after the selected transaction changes), the rendered trace has a
defined step at `visibleStep`. -/
theorem stepThrough_visible_index_in_bounds (store : RecordStore) (rid : String)
    (r : RuleId) (events : List PanelEvent) (tr : EvalTrace)
    (hr : parseRule rid = some r)
    (hst : (runPanel store rid events).stepThrough = true)
    (htr : panelTrace store rid (runPanel store rid events) = some tr) :
    (runPanel store rid events).visibleStep < tr.steps.length := by
  rw [panelTrace_some_steps_length hr htr]
  exact runPanel_inv store rid r hr events hst

/-- Witness for C9 on the concrete interaction sequence. -/
theorem stepThrough_visible_index_in_bounds_witness :
    (runPanel sampleStore "RULE_002" samplePanelEvents).visibleStep
      < samplePanelTrace.steps.length :=
  stepThrough_visible_index_in_bounds sampleStore "RULE_002" .multiSmall
    samplePanelEvents samplePanelTrace rfl (by rfl) (by rfl)

/-- C10: display-then-parse round trip in the override editor — every
canonical finite number survives `parseValue(toDisplayString(n), n)`
unchanged, and so does every array of nonempty comma-free trimmed strings. -/
theorem parseValue_display_roundtrip (d : JSNum) (v : List (List Char))
    (hd : d.normalized)
    (hv : ∀ s ∈ v, s ≠ [] ∧ ',' ∉ s ∧ trimChars s = s) :
    parseValue (toDisplayString (.num d)) (.num d) = .num d
    ∧ parseValue (toDisplayString (.arr v)) (.arr v) = .arr v := by
  constructor
  · rw [show toDisplayString (.num d) = numToChars d from rfl]
    simp only [parseValue]
    rw [jsParseNum_numToChars d hd]
  · rw [show toDisplayString (.arr v) = joinSep [',', ' '] v from rfl]
    simp only [parseValue]
    rw [split_trim_filter_join v hv]

/-- Witness for C10 at 15.5 and a two-element string array. -/
theorem parseValue_display_roundtrip_witness :
    parseValue (toDisplayString (.num ⟨155, 1⟩)) (.num ⟨155, 1⟩) = .num ⟨155, 1⟩
    ∧ parseValue (toDisplayString (.arr [['P', 'R', 'K'], ['I', 'R', 'N']]))
        (.arr [['P', 'R', 'K'], ['I', 'R', 'N']])
      = .arr [['P', 'R', 'K'], ['I', 'R', 'N']] :=
  parseValue_display_roundtrip ⟨155, 1⟩ [['P', 'R', 'K'], ['I', 'R', 'N']]
    (by decide) (by decide)

end RuleDebugger
